import Mathlib

/-!
# Formal model of `mortality.py` (SAUP-Mortality-Data-Analysis)

A shallow embedding of the three computational functions of the repository:
`catch_count`, `p_fate` and `m_fate`, together with proofs of the
specification's claims about them.

Modelling conventions:
* A pandas `DataFrame` is a `List` of row structures holding exactly the
  columns the code touches.
* Numeric weights (`sum`, `med_weight`) are `ℚ`; `sample_size` is `ℕ`
  (the spec's schema declares it a non-negative count).
* A float that can be NaN is `Option ℚ`: `none` models the NaN produced by
  the `0/0` pandas normalization (with `ℕ` sample sizes, a zero grand total
  forces every group sum to `0`, so `0/0 = NaN` is the only degenerate case).
* Python exceptions (`KeyError` from `.loc`, `IndexError` from `.values[0]`
  on an empty selection, the `TypeError` raised by `m_fate`) become an
  `Except PandasError` result.
* `groupby` produces groups in ascending lexical order of the key, one group
  per distinct key, with `sample_size` summed per group; normalization
  divides by the grand total of the grouped sums (`.sum().sum()` in the
  source).
-/

/-- Python exceptions the three functions can surface. -/
inductive PandasError where
  | keyError : String → PandasError
  | indexError : PandasError
  | typeError : String → PandasError
deriving DecidableEq, Repr

/-- Decidable equality of fallible results, so concrete runs can be checked
by `decide`. -/
instance {ε α : Type} [DecidableEq ε] [DecidableEq α] : DecidableEq (Except ε α)
  | .ok a, .ok b =>
    if h : a = b then .isTrue (by rw [h]) else .isFalse (fun hh => h (Except.ok.inj hh))
  | .ok _, .error _ => .isFalse (fun hh => Except.noConfusion hh)
  | .error _, .ok _ => .isFalse (fun hh => Except.noConfusion hh)
  | .error e, .error f =>
    if h : e = f then .isTrue (by rw [h]) else .isFalse (fun hh => h (Except.error.inj hh))

/-- A row of the catch table: columns `catch_type` and `sum` (tonnes). -/
structure CatchRow where
  catch_type : String
  sum : ℚ
deriving DecidableEq, Repr

/-- A row of the fate-sample table: columns `family`, `rfmo`, `fate_type`,
`sample_size`. -/
structure FateRow where
  family : String
  rfmo : String
  fate_type : String
  sample_size : ℕ
deriving DecidableEq, Repr

/-- A row of the mortality-sample table: columns `family`, `estimate_type`,
`sample_size`. -/
structure MortRow where
  family : String
  estimate_type : String
  sample_size : ℕ
deriving DecidableEq, Repr

/-- The hardcoded list of non-shark (ray/skate) taxonomic families,
`non_shark_families` in the source. -/
def non_shark_families : List String :=
  ["Dasyatidae", "Mobulidae", "Myliobatidae", "Rajidae", "Torpedinidae"]

/-- Python `int(...)` applied to a rational: truncation toward zero. -/
def truncQ (q : ℚ) : ℤ :=
  if 0 ≤ q then ⌊q⌋ else ⌈q⌉

/-- `df[df.catch_type == ct]["sum"].sum()`: the total weight of the rows
with the given `catch_type`. -/
def catchTypeTotal (df : List CatchRow) (ct : String) : ℚ :=
  ((df.filter (fun r => r.catch_type == ct)).map (fun r => r.sum)).sum

/-- `catch_count(df, fate, med_weight)` from the source: pick the rows of
the disposition implied by `fate` (`"retained"` → `"Landings"`, anything
else → `"Discards"`), sum their `sum` column, convert tonnes to kilograms,
divide by the median weight and truncate to an integer. -/
def catch_count (df : List CatchRow) (fate : String) (med_weight : ℚ) : ℤ :=
  let total_catch :=
    if fate = "retained" then catchTypeTotal df "Landings"
    else catchTypeTotal df "Discards"
  truncQ (total_catch * 1000 / med_weight)

/-- Lexicographic (code-point) comparison of character lists, the order in
which pandas sorts string group keys. -/
def charListLeb : List Char → List Char → Bool
  | [], _ => true
  | _ :: _, [] => false
  | a :: as, b :: bs =>
    if a.toNat < b.toNat then true
    else if b.toNat < a.toNat then false
    else charListLeb as bs

/-- Lexicographic comparison of strings. -/
def strLeb (a b : String) : Bool :=
  charListLeb a.data b.data

/-- Insert a key into an ascending list of keys. -/
def insertKey (x : String) : List String → List String
  | [] => [x]
  | y :: ys => if strLeb x y then x :: y :: ys else y :: insertKey x ys

/-- Sort keys ascending (insertion sort). -/
def sortKeys : List String → List String
  | [] => []
  | x :: xs => insertKey x (sortKeys xs)

/-- Remove duplicate keys. -/
def dedupKeys : List String → List String
  | [] => []
  | x :: xs => if x ∈ dedupKeys xs then dedupKeys xs else x :: dedupKeys xs

/-- The distinct keys of a pair list, in ascending lexical order: the index
of the series produced by `groupby`. -/
def groupKeys (pairs : List (String × ℕ)) : List String :=
  sortKeys (dedupKeys (pairs.map Prod.fst))

/-- `groupby(key)["sample_size"].sum()` on a list of `(key, sample_size)`
pairs: one entry per distinct key, keys in ascending lexical order, values
summed per key. -/
def groupTotals (pairs : List (String × ℕ)) : List (String × ℕ) :=
  (groupKeys pairs).map
    (fun k => (k, ((pairs.filter (fun p => p.1 == k)).map Prod.snd).sum))

/-- pandas `.sum()` over a column of possibly-NaN floats: NaN entries are
skipped, the empty (or all-NaN) sum is `0.0`. -/
def skipnaSum (l : List (String × Option ℚ)) : ℚ :=
  (l.map Prod.snd).foldr (fun o acc => match o with | some q => q + acc | none => acc) 0

/-- `fate_df[~fate_df.family.isin(non_shark_families)]`. -/
def sharkFateRows (fate_df : List FateRow) : List FateRow :=
  fate_df.filter (fun r => !(non_shark_families.contains r.family))

/-- The domain filter of `p_fate`: `"coastal"` keeps `rfmo == "Non-RFMO"`
rows, any other domain keeps the `rfmo != "Non-RFMO"` rows. -/
def domainFateRows (fate_df : List FateRow) (domain : String) : List FateRow :=
  if domain = "coastal" then
    (sharkFateRows fate_df).filter (fun r => r.rfmo == "Non-RFMO")
  else
    (sharkFateRows fate_df).filter (fun r => r.rfmo != "Non-RFMO")

/-- The grouped `fate_type` sample sizes of the family- and domain-filtered
rows: `fate_non_rfmo_shark.groupby(["fate_type"])["sample_size"].sum()`. -/
def fateGroups (fate_df : List FateRow) (domain : String) : List (String × ℕ) :=
  groupTotals ((domainFateRows fate_df domain).map (fun r => (r.fate_type, r.sample_size)))

/-- The grand total `....sum().sum()` that normalizes the grouped series. -/
def fateTotal (fate_df : List FateRow) (domain : String) : ℕ :=
  ((fateGroups fate_df domain).map Prod.snd).sum

/-- `fate_probs`: the grouped series divided by its grand total; a zero
total makes every entry NaN (`0/0`). -/
def fateProbs (fate_df : List FateRow) (domain : String) : List (String × Option ℚ) :=
  (fateGroups fate_df domain).map
    (fun g => (g.1, if fateTotal fate_df domain = 0 then none
                    else some ((g.2 : ℚ) / (fateTotal fate_df domain : ℚ))))

/-- `p_fate(fate_df, fate, domain)` from the source.
`retained`/`coastal`: `fate_probs.iloc[-2:].sum()` (the last two groups,
NaN skipped). `retained`/`offshore`: `fate_probs.loc["retained_whole"]`
(`KeyError` if absent). Otherwise
`fate_probs[fate_probs.index == fate].values[0]` (`IndexError` if the
selection is empty). -/
def p_fate (fate_df : List FateRow) (fate : String) (domain : String) :
    Except PandasError (Option ℚ) :=
  let fate_probs := fateProbs fate_df domain
  if fate = "retained" ∧ domain = "coastal" then
    .ok (some (skipnaSum (fate_probs.drop (fate_probs.length - 2))))
  else if fate = "retained" ∧ domain = "offshore" then
    match fate_probs.find? (fun p => p.1 == "retained_whole") with
    | some p => .ok p.2
    | none => .error (.keyError "retained_whole")
  else
    match (fate_probs.filter (fun p => p.1 == fate)).head? with
    | some p => .ok p.2
    | none => .error .indexError

/-- `mortality_df[~mortality_df.family.isin(non_shark_families)]`. -/
def sharkMortRows (mortality_df : List MortRow) : List MortRow :=
  mortality_df.filter (fun r => !(non_shark_families.contains r.family))

/-- The grouped `estimate_type` sample sizes of the family-filtered rows:
`mortality_shark.groupby("estimate_type").sample_size.sum()`. -/
def mortGroups (mortality_df : List MortRow) : List (String × ℕ) :=
  groupTotals ((sharkMortRows mortality_df).map (fun r => (r.estimate_type, r.sample_size)))

/-- The grand total normalizing the mortality groups. -/
def mortTotal (mortality_df : List MortRow) : ℕ :=
  ((mortGroups mortality_df).map Prod.snd).sum

/-- `post_release_probs`: the grouped series divided by its grand total. -/
def mortProbs (mortality_df : List MortRow) : List (String × Option ℚ) :=
  (mortGroups mortality_df).map
    (fun g => (g.1, if mortTotal mortality_df = 0 then none
                    else some ((g.2 : ℚ) / (mortTotal mortality_df : ℚ))))

/-- `m_fate(mortality_df, fate, domain)` from the source. `domain` is
accepted but unused. `discard_alive`: the `"post-release mortality"` entry
of `post_release_probs` via a boolean-mask selection (`IndexError` when the
selection is empty). `discard_dead`/`retained`: exactly `1`. Any other
fate: `TypeError`. -/
def m_fate (mortality_df : List MortRow) (fate : String) (domain : String) :
    Except PandasError (Option ℚ) :=
  let post_release_probs := mortProbs mortality_df
  if fate = "discard_alive" then
    match (post_release_probs.filter (fun p => p.1 == "post-release mortality")).head? with
    | some p => .ok p.2
    | none => .error .indexError
  else if fate = "discard_dead" ∨ fate = "retained" then
    .ok (some 1)
  else
    .error (.typeError fate)

/-! ## Reference quantities used to state the specification's claims -/

/-- The catch total of the disposition the spec assigns to a fate:
`"retained"` reads the `"Landings"` rows, any other fate the `"Discards"`
rows. -/
def dispositionTotal (df : List CatchRow) (fate : String) : ℚ :=
  if fate = "retained" then catchTypeTotal df "Landings"
  else catchTypeTotal df "Discards"

/-- The total `sample_size` of the family- and domain-filtered fate rows
(before grouping). -/
def rawFateTotal (t : List FateRow) (domain : String) : ℕ :=
  ((domainFateRows t domain).map (fun r => r.sample_size)).sum

/-- The total `sample_size` of the family-filtered mortality rows. -/
def rawMortTotal (m : List MortRow) : ℕ :=
  ((sharkMortRows m).map (fun r => r.sample_size)).sum

/-! ## Concrete tables (the spec's example scenarios and edge cases) -/

/-- Scenario 1/2 of the spec: one landings row of 10 t, one discards row of
2.5 t. -/
def exCatch : List CatchRow :=
  [⟨"Landings", 10⟩, ⟨"Discards", 5/2⟩]

/-- Scenario 3 of the spec (coastal rows) together with an offshore block
whose fate types are exactly the three offshore categories. -/
def exFate : List FateRow :=
  [⟨"Carcharhinidae", "Non-RFMO", "discard_alive", 30⟩,
   ⟨"Carcharhinidae", "Non-RFMO", "discard_dead", 20⟩,
   ⟨"Sphyrnidae", "Non-RFMO", "retained_damaged", 10⟩,
   ⟨"Sphyrnidae", "Non-RFMO", "retained_whole", 40⟩,
   ⟨"Carcharhinidae", "WCPFC", "discard_alive", 1⟩,
   ⟨"Carcharhinidae", "WCPFC", "discard_dead", 2⟩,
   ⟨"Carcharhinidae", "WCPFC", "retained_whole", 7⟩]

/-- `exFate` plus ray/skate rows of dominant weight, which the family
filter must discard. -/
def exFateWithRays : List FateRow :=
  ⟨"Rajidae", "Non-RFMO", "discard_alive", 100000⟩ ::
    exFate ++ [⟨"Mobulidae", "WCPFC", "retained_whole", 99999⟩]

/-- Scenario 4 of the spec: post-release mortality 15 of 100 samples. -/
def exMort : List MortRow :=
  [⟨"Carcharhinidae", "post-release mortality", 15⟩,
   ⟨"Carcharhinidae", "other", 85⟩]

/-- `exMort` plus a dominant-weight ray row. -/
def exMortWithRays : List MortRow :=
  ⟨"Torpedinidae", "post-release mortality", 100000⟩ :: exMort

/-- A coastal table with only three fate_type groups: one `"retained"`
sub-category instead of two. -/
def ceFate : List FateRow :=
  [⟨"Carcharhinidae", "Non-RFMO", "discard_alive", 1⟩,
   ⟨"Carcharhinidae", "Non-RFMO", "discard_dead", 1⟩,
   ⟨"Carcharhinidae", "Non-RFMO", "retained_whole", 1⟩]

/-- A coastal table whose only row has `sample_size = 0`: the grouped key
exists but the grand total is zero. -/
def ztFate : List FateRow :=
  [⟨"Carcharhinidae", "Non-RFMO", "discard_alive", 0⟩]

/-- A mortality table whose only row has `sample_size = 0`. -/
def zmMort : List MortRow :=
  [⟨"Carcharhinidae", "post-release mortality", 0⟩]

/-- A coastal table with a single fate_type group. -/
def oneFate : List FateRow :=
  [⟨"Carcharhinidae", "Non-RFMO", "discard_alive", 5⟩]

/-! ## Properties of the grouping machinery -/

theorem mem_insertKey {a x : String} {l : List String} :
    a ∈ insertKey x l ↔ a = x ∨ a ∈ l := by
  induction l with
  | nil => simp [insertKey]
  | cons y ys ih =>
    simp only [insertKey]
    split
    · simp [List.mem_cons]
    · simp only [List.mem_cons, ih]
      tauto

theorem nodup_insertKey {x : String} {l : List String} (hx : x ∉ l) (hl : l.Nodup) :
    (insertKey x l).Nodup := by
  induction l with
  | nil => simp [insertKey]
  | cons y ys ih =>
    rcases List.nodup_cons.mp hl with ⟨hy, hys⟩
    have hx' : x ∉ ys := fun h => hx (List.mem_cons_of_mem _ h)
    have hxy : x ≠ y := fun h => hx (h ▸ List.mem_cons_self y ys)
    simp only [insertKey]
    split
    · exact List.nodup_cons.mpr ⟨by simp [hxy, hx'], hl⟩
    · refine List.nodup_cons.mpr ⟨?_, ih hx' hys⟩
      intro hmem
      rcases mem_insertKey.mp hmem with h | h
      · exact hxy h.symm
      · exact hy h

theorem mem_sortKeys {a : String} {l : List String} : a ∈ sortKeys l ↔ a ∈ l := by
  induction l with
  | nil => simp [sortKeys]
  | cons x xs ih => simp [sortKeys, mem_insertKey, ih]

theorem nodup_sortKeys {l : List String} (h : l.Nodup) : (sortKeys l).Nodup := by
  induction l with
  | nil => simp [sortKeys]
  | cons x xs ih =>
    rcases List.nodup_cons.mp h with ⟨hx, hxs⟩
    exact nodup_insertKey (fun hm => hx (mem_sortKeys.mp hm)) (ih hxs)

theorem mem_dedupKeys (l : List String) : ∀ a, a ∈ dedupKeys l ↔ a ∈ l := by
  induction l with
  | nil => simp [dedupKeys]
  | cons x xs ih =>
    intro a
    simp only [dedupKeys]
    split
    · rename_i hx
      rw [ih a, List.mem_cons]
      constructor
      · exact Or.inr
      · rintro (rfl | h)
        · exact (ih a).mp hx
        · exact h
    · simp only [List.mem_cons, ih a]

theorem nodup_dedupKeys (l : List String) : (dedupKeys l).Nodup := by
  induction l with
  | nil => simp [dedupKeys]
  | cons x xs ih =>
    simp only [dedupKeys]
    split
    · exact ih
    · rename_i hx
      exact List.nodup_cons.mpr ⟨hx, ih⟩

theorem groupKeys_nodup (pairs : List (String × ℕ)) : (groupKeys pairs).Nodup :=
  nodup_sortKeys (nodup_dedupKeys _)

theorem mem_groupKeys {pairs : List (String × ℕ)} {k : String} :
    k ∈ groupKeys pairs ↔ k ∈ pairs.map Prod.fst := by
  simp [groupKeys, mem_sortKeys, mem_dedupKeys]

theorem groupTotals_keys (pairs : List (String × ℕ)) :
    (groupTotals pairs).map Prod.fst = groupKeys pairs := by
  rw [groupTotals, List.map_map]
  exact List.map_id _

theorem groupTotals_keys_nodup (pairs : List (String × ℕ)) :
    ((groupTotals pairs).map Prod.fst).Nodup := by
  rw [groupTotals_keys]; exact groupKeys_nodup pairs

theorem sum_over_keys :
    ∀ (K : List String) (pairs : List (String × ℕ)), K.Nodup → (∀ p ∈ pairs, p.1 ∈ K) →
      (K.map (fun k => ((pairs.filter (fun p => p.1 == k)).map Prod.snd).sum)).sum
        = (pairs.map Prod.snd).sum := by
  intro K
  induction K with
  | nil =>
    intro pairs _ hcov
    cases pairs with
    | nil => simp
    | cons p ps => exact absurd (hcov p (List.mem_cons_self _ _)) (List.not_mem_nil _)
  | cons k K ih =>
    intro pairs hnd hcov
    rcases List.nodup_cons.mp hnd with ⟨hk, hndK⟩
    have htail : ∀ k' ∈ K, pairs.filter (fun p => p.1 == k')
        = (pairs.filter (fun p => !(p.1 == k))).filter (fun p => p.1 == k') := by
      intro k' hk'
      have hkk : k' ≠ k := by rintro rfl; exact hk hk'
      rw [List.filter_filter]
      apply List.filter_congr
      intro p _
      by_cases h : p.1 = k'
      · simp [h, hkk]
      · simp [h]
    have hcov₂ : ∀ p ∈ pairs.filter (fun p => !(p.1 == k)), p.1 ∈ K := by
      intro p hp
      have hp' : p ∈ pairs := List.mem_of_mem_filter hp
      have hne := List.of_mem_filter hp
      rcases List.mem_cons.mp (hcov p hp') with h | h
      · simp [h] at hne
      · exact h
    have hmap : K.map (fun k' => ((pairs.filter (fun p => p.1 == k')).map Prod.snd).sum)
        = K.map (fun k' =>
            (((pairs.filter (fun p => !(p.1 == k))).filter (fun p => p.1 == k')).map Prod.snd).sum) := by
      apply List.map_congr_left
      intro k' hk'
      rw [htail k' hk']
    simp only [List.map_cons, List.sum_cons]
    rw [hmap, ih _ hndK hcov₂]
    have hperm := (List.filter_append_perm (fun p => p.1 == k) pairs).map Prod.snd
    have hsum := hperm.sum_eq
    rw [List.map_append, List.sum_append] at hsum
    exact hsum

theorem groupTotals_sum (pairs : List (String × ℕ)) :
    ((groupTotals pairs).map Prod.snd).sum = (pairs.map Prod.snd).sum := by
  have h := sum_over_keys (groupKeys pairs) pairs (groupKeys_nodup pairs)
    (fun p hp => mem_groupKeys.mpr (List.mem_map_of_mem Prod.fst hp))
  simpa [groupTotals, List.map_map, Function.comp] using h

theorem fateTotal_eq_raw (t : List FateRow) (domain : String) :
    fateTotal t domain = rawFateTotal t domain := by
  unfold fateTotal rawFateTotal fateGroups
  rw [groupTotals_sum, List.map_map]
  rfl

theorem mortTotal_eq_raw (m : List MortRow) :
    mortTotal m = rawMortTotal m := by
  unfold mortTotal rawMortTotal mortGroups
  rw [groupTotals_sum, List.map_map]
  rfl

/-! ## First-match selection on keyed lists -/

theorem keyed_filter_head {β : Type} :
    ∀ (l : List (String × β)) (k : String) (v : β),
      ((l.map Prod.fst).Nodup) → (k, v) ∈ l →
      (l.filter (fun p => p.1 == k)).head? = some (k, v) := by
  intro l
  induction l with
  | nil => intro k v _ hm; cases hm
  | cons a l ih =>
    intro k v hnd hm
    rw [List.map_cons, List.nodup_cons] at hnd
    rcases List.mem_cons.mp hm with rfl | hm'
    · have h : ((fun p => p.1 == k) (k, v)) = true := by simp
      rw [List.filter_cons, if_pos h, List.head?_cons]
    · have hk : k ∈ l.map Prod.fst := List.mem_map_of_mem Prod.fst hm'
      have hak : ¬((fun p => p.1 == k) a) = true := by
        simp only [beq_iff_eq]
        rintro rfl
        exact hnd.1 hk
      rw [List.filter_cons, if_neg hak]
      exact ih k v hnd.2 hm'

theorem keyed_find? {β : Type} :
    ∀ (l : List (String × β)) (k : String) (v : β),
      ((l.map Prod.fst).Nodup) → (k, v) ∈ l →
      l.find? (fun p => p.1 == k) = some (k, v) := by
  intro l
  induction l with
  | nil => intro k v _ hm; cases hm
  | cons a l ih =>
    intro k v hnd hm
    rw [List.map_cons, List.nodup_cons] at hnd
    rcases List.mem_cons.mp hm with rfl | hm'
    · have h : ((fun p => p.1 == k) (k, v)) = true := by simp
      exact List.find?_cons_of_pos _ h
    · have hk : k ∈ l.map Prod.fst := List.mem_map_of_mem Prod.fst hm'
      have hak : ¬((fun p => p.1 == k) a) = true := by
        simp only [beq_iff_eq]
        rintro rfl
        exact hnd.1 hk
      have step : List.find? (fun p => p.1 == k) (a :: l)
          = List.find? (fun p => p.1 == k) l := List.find?_cons_of_neg _ hak
      rw [step]
      exact ih k v hnd.2 hm'

theorem filter_head_of_all_none :
    ∀ (L : List (String × Option ℚ)), (∀ x ∈ L, x.2 = none) → ∀ k, k ∈ L.map Prod.fst →
      ∃ k', (L.filter (fun p => p.1 == k)).head? = some (k', none) := by
  intro L
  induction L with
  | nil => intro _ k hk; simp at hk
  | cons a L ih =>
    intro hall k hk
    by_cases h : ((fun p => p.1 == k) a) = true
    · refine ⟨a.1, ?_⟩
      rw [List.filter_cons, if_pos h, List.head?_cons]
      have ha := hall a (List.mem_cons_self _ _)
      cases a
      simp only at ha
      rw [ha]
    · rw [List.map_cons, List.mem_cons] at hk
      rcases hk with rfl | hk'
      · simp at h
      · have hall' : ∀ x ∈ L, x.2 = none := fun x hx => hall x (List.mem_cons_of_mem _ hx)
        rcases ih hall' k hk' with ⟨k', hh⟩
        exact ⟨k', by rw [List.filter_cons, if_neg h]; exact hh⟩

theorem find?_of_all_none :
    ∀ (L : List (String × Option ℚ)), (∀ x ∈ L, x.2 = none) → ∀ k, k ∈ L.map Prod.fst →
      ∃ k', L.find? (fun p => p.1 == k) = some (k', none) := by
  intro L
  induction L with
  | nil => intro _ k hk; simp at hk
  | cons a L ih =>
    intro hall k hk
    by_cases h : ((fun p => p.1 == k) a) = true
    · refine ⟨a.1, ?_⟩
      have step : List.find? (fun p => p.1 == k) (a :: L) = some a :=
        List.find?_cons_of_pos _ h
      rw [step]
      have ha := hall a (List.mem_cons_self _ _)
      cases a
      simp only at ha
      rw [ha]
    · rw [List.map_cons, List.mem_cons] at hk
      rcases hk with rfl | hk'
      · simp at h
      · have hall' : ∀ x ∈ L, x.2 = none := fun x hx => hall x (List.mem_cons_of_mem _ hx)
        rcases ih hall' k hk' with ⟨k', hh⟩
        have step : List.find? (fun p => p.1 == k) (a :: L)
            = List.find? (fun p => p.1 == k) L := List.find?_cons_of_neg _ h
        exact ⟨k', by rw [step]; exact hh⟩

/-! ## Sums of possibly-NaN columns -/

theorem skipnaSum_cons_some (k : String) (q : ℚ) (xs : List (String × Option ℚ)) :
    skipnaSum ((k, some q) :: xs) = q + skipnaSum xs := rfl

theorem skipnaSum_cons_none (k : String) (xs : List (String × Option ℚ)) :
    skipnaSum ((k, none) :: xs) = skipnaSum xs := rfl

theorem skipnaSum_all_some {β : Type} (name : β → String) (f : β → ℚ) :
    ∀ l : List β, skipnaSum (l.map (fun g => (name g, some (f g)))) = (l.map f).sum := by
  intro l
  induction l with
  | nil => rfl
  | cons g l ih =>
    rw [List.map_cons, skipnaSum_cons_some, ih, List.map_cons, List.sum_cons]

theorem skipnaSum_all_none {β : Type} (name : β → String) :
    ∀ l : List β, skipnaSum (l.map (fun g => (name g, (none : Option ℚ)))) = 0 := by
  intro l
  induction l with
  | nil => rfl
  | cons g l ih => rw [List.map_cons, skipnaSum_cons_none, ih]

theorem fateProbs_keys (t : List FateRow) (d : String) :
    (fateProbs t d).map Prod.fst = (fateGroups t d).map Prod.fst := by
  rw [fateProbs, List.map_map]
  rfl

theorem mortProbs_keys (m : List MortRow) :
    (mortProbs m).map Prod.fst = (mortGroups m).map Prod.fst := by
  rw [mortProbs, List.map_map]
  rfl

/-! ## The specification's claims -/

/-- C1: for every CatchTable with non-negative `sum` values, every fate, and
every strictly positive medianWeight, `catch_count` returns a non-negative
integer equal to `⌊T * 1000 / medianWeight⌋`, where `T` is the sum of the
`sum` column over the rows selected by the fate's disposition. -/
theorem catch_count_nonneg_floor (df : List CatchRow) (fate : String) (w : ℚ)
    (hrows : ∀ r ∈ df, 0 ≤ r.sum) (hw : 0 < w) :
    catch_count df fate w = ⌊dispositionTotal df fate * 1000 / w⌋ ∧
      0 ≤ catch_count df fate w := by
  have hT : 0 ≤ dispositionTotal df fate := by
    unfold dispositionTotal catchTypeTotal
    split <;>
    · apply List.sum_nonneg
      intro x hx
      rcases List.mem_map.mp hx with ⟨r, hr, rfl⟩
      exact hrows r (List.mem_of_mem_filter hr)
  have hq : 0 ≤ dispositionTotal df fate * 1000 / w :=
    div_nonneg (mul_nonneg hT (by norm_num)) hw.le
  have hcc : catch_count df fate w = truncQ (dispositionTotal df fate * 1000 / w) := rfl
  constructor
  · rw [hcc, truncQ, if_pos hq]
  · rw [hcc, truncQ, if_pos hq]
    exact Int.floor_nonneg.mpr hq

/-- Witness for C1 at the spec's scenario 1 (10 t of landings, 50 kg median
weight). -/
theorem catch_count_nonneg_floor_witness :
    (∀ r ∈ exCatch, 0 ≤ r.sum) ∧ (0 : ℚ) < 50 ∧
      (catch_count exCatch "retained" 50 = ⌊dispositionTotal exCatch "retained" * 1000 / 50⌋ ∧
        0 ≤ catch_count exCatch "retained" 50) := by
  have hpos : ∀ r ∈ exCatch, 0 ≤ r.sum := by
    intro r hr
    simp only [exCatch, List.mem_cons, List.not_mem_nil, or_false] at hr
    rcases hr with rfl | rfl <;> norm_num
  exact ⟨hpos, by norm_num, catch_count_nonneg_floor exCatch "retained" 50 hpos (by norm_num)⟩

/-- C3: `m_fate` returns exactly `1.0` for the fates `"discard_dead"` and
`"retained"`, for every table and every domain. -/
theorem m_fate_certain_fates (m : List MortRow) (domain : String) :
    m_fate m "discard_dead" domain = .ok (some 1) ∧
      m_fate m "retained" domain = .ok (some 1) := by
  constructor <;> simp [m_fate]

/-- C9: `catch_count` sums the `"Landings"` rows exactly for
`fate = "retained"` and the `"Discards"` rows for every other fate, with no
validation of the fate string. -/
theorem catch_count_branch (df : List CatchRow) (fate : String) (w : ℚ) :
    (fate = "retained" →
        catch_count df fate w = truncQ (catchTypeTotal df "Landings" * 1000 / w)) ∧
      (fate ≠ "retained" →
        catch_count df fate w = truncQ (catchTypeTotal df "Discards" * 1000 / w)) := by
  constructor
  · rintro rfl
    rfl
  · intro h
    simp only [catch_count]
    rw [if_neg h]

/-- Witness for C9: the unvalidated fate `"bogus_fate"` falls into the
discards branch, `"retained"` into the landings branch. -/
theorem catch_count_branch_witness :
    ("bogus_fate" : String) ≠ "retained" ∧
      catch_count exCatch "bogus_fate" 50 = truncQ (catchTypeTotal exCatch "Discards" * 1000 / 50) ∧
      catch_count exCatch "retained" 50 = truncQ (catchTypeTotal exCatch "Landings" * 1000 / 50) :=
  ⟨by decide, (catch_count_branch exCatch "bogus_fate" 50).2 (by decide),
    (catch_count_branch exCatch "retained" 50).1 rfl⟩

/-- C8: `m_fate` raises `TypeError` exactly for fates outside the three
recognized ones; the recognized fates never produce that error. -/
theorem m_fate_invalid_fate (m : List MortRow) (fate domain : String) :
    (fate ∉ (["discard_alive", "discard_dead", "retained"] : List String) →
        m_fate m fate domain = .error (.typeError fate)) ∧
      (fate ∈ (["discard_alive", "discard_dead", "retained"] : List String) →
        ∀ s, m_fate m fate domain ≠ .error (.typeError s)) := by
  constructor
  · intro h
    simp only [List.mem_cons, List.not_mem_nil, or_false, not_or] at h
    obtain ⟨h1, h2, h3⟩ := h
    simp [m_fate, h1, h2, h3]
  · intro h s
    simp only [List.mem_cons, List.not_mem_nil, or_false] at h
    rcases h with rfl | rfl | rfl
    · simp only [m_fate]
      rw [if_pos trivial]
      cases hh : ((mortProbs m).filter (fun p => p.1 == "post-release mortality")).head? with
      | none => simp [hh]
      | some p => simp [hh]
    · simp [m_fate]
    · simp [m_fate]

/-- Witness for C8: `"bogus_fate"` is rejected, `"retained"` is not. -/
theorem m_fate_invalid_fate_witness :
    ("bogus_fate" : String) ∉ (["discard_alive", "discard_dead", "retained"] : List String) ∧
      m_fate exMort "bogus_fate" "coastal" = .error (.typeError "bogus_fate") ∧
      ("retained" : String) ∈ (["discard_alive", "discard_dead", "retained"] : List String) ∧
      m_fate exMort "retained" "coastal" ≠ .error (.typeError "retained") :=
  ⟨by decide, (m_fate_invalid_fate exMort "bogus_fate" "coastal").1 (by decide),
    by decide, (m_fate_invalid_fate exMort "retained" "coastal").2 (by decide) "retained"⟩

/-- C5: rows whose family is a non-shark family never influence `p_fate` or
`m_fate`: two tables with the same family-filtered rows (i.e. differing only
by added/removed non-shark rows) give identical results, success or
failure. -/
theorem nonshark_rows_never_influence (t₁ t₂ : List FateRow) (m₁ m₂ : List MortRow)
    (fate domain : String)
    (hf : sharkFateRows t₁ = sharkFateRows t₂) (hm : sharkMortRows m₁ = sharkMortRows m₂) :
    p_fate t₁ fate domain = p_fate t₂ fate domain ∧
      m_fate m₁ fate domain = m_fate m₂ fate domain := by
  have hd : ∀ d, domainFateRows t₁ d = domainFateRows t₂ d := by
    intro d
    unfold domainFateRows
    rw [hf]
  constructor
  · simp only [p_fate, fateProbs, fateTotal, fateGroups, hd]
  · simp only [m_fate, mortProbs, mortTotal, mortGroups, hm]

/-- Witness for C5: adding dominant-weight ray rows (Rajidae, Mobulidae,
Torpedinidae) changes neither function's output. -/
theorem nonshark_rows_never_influence_witness :
    sharkFateRows exFate = sharkFateRows exFateWithRays ∧
      sharkMortRows exMort = sharkMortRows exMortWithRays ∧
      p_fate exFate "discard_alive" "coastal" = p_fate exFateWithRays "discard_alive" "coastal" ∧
      m_fate exMort "discard_alive" "coastal" = m_fate exMortWithRays "discard_alive" "coastal" := by
  have h := nonshark_rows_never_influence exFate exFateWithRays exMort exMortWithRays
    "discard_alive" "coastal" (by decide) (by decide)
  exact ⟨by decide, by decide, h.1, h.2⟩

/-- C6: when the requested group key is absent from the grouped
distribution, `p_fate` (`.loc` / mask selection) and the `"discard_alive"`
branch of `m_fate` fail with a lookup/empty-selection error instead of
returning a default probability. -/
theorem lookup_failures_propagate (t : List FateRow) (m : List MortRow) (fate domain : String) :
    ("retained_whole" ∉ (fateGroups t "offshore").map Prod.fst →
        p_fate t "retained" "offshore" = .error (.keyError "retained_whole")) ∧
      (¬(fate = "retained" ∧ domain = "coastal") → ¬(fate = "retained" ∧ domain = "offshore") →
        fate ∉ (fateGroups t domain).map Prod.fst →
        p_fate t fate domain = .error .indexError) ∧
      ("post-release mortality" ∉ (mortGroups m).map Prod.fst →
        m_fate m "discard_alive" domain = .error .indexError) := by
  refine ⟨?_, ?_, ?_⟩
  · intro hk
    have hfind : (fateProbs t "offshore").find? (fun p => p.1 == "retained_whole") = none := by
      apply List.find?_eq_none.mpr
      intro x hx
      simp only [beq_iff_eq]
      intro hx1
      apply hk
      rw [← fateProbs_keys]
      exact hx1 ▸ List.mem_map_of_mem Prod.fst hx
    simp [p_fate, hfind]
  · intro h1 h2 hk
    have hfil : (fateProbs t domain).filter (fun p => p.1 == fate) = [] := by
      apply List.filter_eq_nil_iff.mpr
      intro x hx
      simp only [beq_iff_eq]
      intro hx1
      apply hk
      rw [← fateProbs_keys]
      exact hx1 ▸ List.mem_map_of_mem Prod.fst hx
    simp only [p_fate, if_neg h1, if_neg h2, hfil, List.head?_nil]
  · intro hk
    have hfil : (mortProbs m).filter (fun p => p.1 == "post-release mortality") = [] := by
      apply List.filter_eq_nil_iff.mpr
      intro x hx
      simp only [beq_iff_eq]
      intro hx1
      apply hk
      rw [← mortProbs_keys]
      exact hx1 ▸ List.mem_map_of_mem Prod.fst hx
    simp [m_fate, hfil]

/-- Witness for C6: a missing `"retained_whole"` group raises `KeyError`, a
missing mask key raises `IndexError` in both functions. -/
theorem lookup_failures_propagate_witness :
    ("retained_whole" ∉ (fateGroups ztFate "offshore").map Prod.fst) ∧
      p_fate ztFate "retained" "offshore" = .error (.keyError "retained_whole") ∧
      ("bogus" ∉ (fateGroups exFate "coastal").map Prod.fst) ∧
      p_fate exFate "bogus" "coastal" = .error .indexError ∧
      ("post-release mortality" ∉ (mortGroups [⟨"Carcharhinidae", "other", 5⟩]).map Prod.fst) ∧
      m_fate [⟨"Carcharhinidae", "other", 5⟩] "discard_alive" "coastal" = .error .indexError := by
  refine ⟨by decide, ?_, by decide, ?_, by decide, ?_⟩
  · exact (lookup_failures_propagate ztFate [] "x" "x").1 (by decide)
  · exact (lookup_failures_propagate exFate [] "bogus" "coastal").2.1
      (by decide) (by decide) (by decide)
  · exact (lookup_failures_propagate [] [⟨"Carcharhinidae", "other", 5⟩] "x" "coastal").2.2
      (by decide)

/-- C10: `p_fate(_, "retained", "coastal")` with fewer than two fate_type
groups does not raise: `iloc[-2:]` silently returns all existing groups, so
the result is the sum of the existing probabilities, in particular `0.0` on
an empty distribution. -/
theorem p_fate_coastal_retained_few_groups (t : List FateRow)
    (h : (fateGroups t "coastal").length < 2) :
    (∃ q : ℚ, p_fate t "retained" "coastal" = .ok (some q)) ∧
      (fateGroups t "coastal" = [] → p_fate t "retained" "coastal" = .ok (some 0)) ∧
      (fateTotal t "coastal" ≠ 0 →
        p_fate t "retained" "coastal" = .ok (some (((fateGroups t "coastal").map
          (fun g => (g.2 : ℚ) / (fateTotal t "coastal" : ℚ))).sum))) := by
  have hbranch : p_fate t "retained" "coastal"
      = .ok (some (skipnaSum ((fateProbs t "coastal").drop
          ((fateProbs t "coastal").length - 2)))) := by
    simp [p_fate]
  have hlen : (fateProbs t "coastal").length = (fateGroups t "coastal").length := by
    simp [fateProbs]
  have hdrop : (fateProbs t "coastal").drop ((fateProbs t "coastal").length - 2)
      = fateProbs t "coastal" := by
    have h0 : (fateProbs t "coastal").length - 2 = 0 := by omega
    rw [h0, List.drop_zero]
  refine ⟨⟨skipnaSum (fateProbs t "coastal"), by rw [hbranch, hdrop]⟩, ?_, ?_⟩
  · intro hnil
    have hpnil : fateProbs t "coastal" = [] := by simp [fateProbs, hnil]
    rw [hbranch, hdrop, hpnil]
    rfl
  · intro htot
    have hprobs : fateProbs t "coastal" = (fateGroups t "coastal").map
        (fun g => (g.1, some ((g.2 : ℚ) / (fateTotal t "coastal" : ℚ)))) := by
      simp [fateProbs, htot]
    have hsum := skipnaSum_all_some (fun g : String × ℕ => g.1)
      (fun g : String × ℕ => (g.2 : ℚ) / (fateTotal t "coastal" : ℚ)) (fateGroups t "coastal")
    rw [hbranch, hdrop, hprobs, hsum]

/-- Witness for C10: a single-group coastal table returns probability 1 with
no error. -/
theorem p_fate_coastal_retained_few_groups_witness :
    (fateGroups oneFate "coastal").length < 2 ∧
      ((∃ q : ℚ, p_fate oneFate "retained" "coastal" = .ok (some q)) ∧
        (fateGroups oneFate "coastal" = [] →
          p_fate oneFate "retained" "coastal" = .ok (some 0)) ∧
        (fateTotal oneFate "coastal" ≠ 0 →
          p_fate oneFate "retained" "coastal" = .ok (some (((fateGroups oneFate "coastal").map
            (fun g => (g.2 : ℚ) / (fateTotal oneFate "coastal" : ℚ))).sum)))) :=
  ⟨by decide, p_fate_coastal_retained_few_groups oneFate (by decide)⟩

/-! ## Evaluation of the three selection branches of `p_fate` -/

theorem p_fate_mask_eval (t : List FateRow) (fate domain : String)
    (h1 : ¬(fate = "retained" ∧ domain = "coastal"))
    (h2 : ¬(fate = "retained" ∧ domain = "offshore"))
    (htot : fateTotal t domain ≠ 0) (n : ℕ) (hmem : (fate, n) ∈ fateGroups t domain) :
    p_fate t fate domain = .ok (some ((n : ℚ) / (fateTotal t domain : ℚ))) := by
  have hprobs : fateProbs t domain = (fateGroups t domain).map
      (fun g => (g.1, some ((g.2 : ℚ) / (fateTotal t domain : ℚ)))) := by
    simp [fateProbs, htot]
  have hnd : ((fateProbs t domain).map Prod.fst).Nodup := by
    rw [fateProbs_keys]
    exact groupTotals_keys_nodup _
  have hmem' : (fate, some ((n : ℚ) / (fateTotal t domain : ℚ))) ∈ fateProbs t domain := by
    rw [hprobs]
    exact List.mem_map_of_mem _ hmem
  have hh := keyed_filter_head (fateProbs t domain) fate _ hnd hmem'
  simp only [p_fate, if_neg h1, if_neg h2, hh]

theorem p_fate_loc_eval (t : List FateRow)
    (htot : fateTotal t "offshore" ≠ 0) (n : ℕ)
    (hmem : ("retained_whole", n) ∈ fateGroups t "offshore") :
    p_fate t "retained" "offshore" = .ok (some ((n : ℚ) / (fateTotal t "offshore" : ℚ))) := by
  have hprobs : fateProbs t "offshore" = (fateGroups t "offshore").map
      (fun g => (g.1, some ((g.2 : ℚ) / (fateTotal t "offshore" : ℚ)))) := by
    simp [fateProbs, htot]
  have hnd : ((fateProbs t "offshore").map Prod.fst).Nodup := by
    rw [fateProbs_keys]
    exact groupTotals_keys_nodup _
  have hmem' : ("retained_whole", some ((n : ℚ) / (fateTotal t "offshore" : ℚ)))
      ∈ fateProbs t "offshore" := by
    rw [hprobs]
    exact List.mem_map_of_mem _ hmem
  have hh := keyed_find? (fateProbs t "offshore") "retained_whole" _ hnd hmem'
  simp [p_fate, hh]

theorem p_fate_lasttwo_eval (t : List FateRow) (htot : fateTotal t "coastal" ≠ 0) :
    p_fate t "retained" "coastal" = .ok (some ((((fateGroups t "coastal").drop
      ((fateGroups t "coastal").length - 2)).map
        (fun g => (g.2 : ℚ) / (fateTotal t "coastal" : ℚ))).sum)) := by
  have hbranch : p_fate t "retained" "coastal"
      = .ok (some (skipnaSum ((fateProbs t "coastal").drop
          ((fateProbs t "coastal").length - 2)))) := by
    simp [p_fate]
  have hlen : (fateProbs t "coastal").length = (fateGroups t "coastal").length := by
    simp [fateProbs]
  have hprobs : fateProbs t "coastal" = (fateGroups t "coastal").map
      (fun g => (g.1, some ((g.2 : ℚ) / (fateTotal t "coastal" : ℚ)))) := by
    simp [fateProbs, htot]
  have hsum := skipnaSum_all_some (fun g : String × ℕ => g.1)
    (fun g : String × ℕ => (g.2 : ℚ) / (fateTotal t "coastal" : ℚ))
    ((fateGroups t "coastal").drop ((fateGroups t "coastal").length - 2))
  rw [hbranch, hlen, hprobs, ← List.map_drop, hsum]

/-- C2: `p_fate` selects from the normalized fate_type distribution exactly
as the spec describes: coastal retained takes the sum of the probabilities
of the last two groups in sorted order, offshore retained the probability of
the group named `"retained_whole"`, and every other fate the probability of
the group named by the fate string. -/
theorem p_fate_selection (t : List FateRow) (fate domain : String) :
    (fateTotal t "coastal" ≠ 0 →
        p_fate t "retained" "coastal" = .ok (some ((((fateGroups t "coastal").drop
          ((fateGroups t "coastal").length - 2)).map
            (fun g => (g.2 : ℚ) / (fateTotal t "coastal" : ℚ))).sum))) ∧
      (fateTotal t "offshore" ≠ 0 → ∀ n : ℕ, ("retained_whole", n) ∈ fateGroups t "offshore" →
        p_fate t "retained" "offshore"
          = .ok (some ((n : ℚ) / (fateTotal t "offshore" : ℚ)))) ∧
      (fate ≠ "retained" → fateTotal t domain ≠ 0 →
        ∀ n : ℕ, (fate, n) ∈ fateGroups t domain →
        p_fate t fate domain = .ok (some ((n : ℚ) / (fateTotal t domain : ℚ)))) := by
  refine ⟨fun htot => p_fate_lasttwo_eval t htot,
    fun htot n hmem => p_fate_loc_eval t htot n hmem,
    fun hne htot n hmem => p_fate_mask_eval t fate domain
      (fun hc => hne hc.1) (fun hc => hne hc.1) htot n hmem⟩

/-- Witness for C2 at the spec's scenario 3 plus an offshore block. -/
theorem p_fate_selection_witness :
    fateTotal exFate "coastal" ≠ 0 ∧
      p_fate exFate "retained" "coastal" = .ok (some ((((fateGroups exFate "coastal").drop
        ((fateGroups exFate "coastal").length - 2)).map
          (fun g => (g.2 : ℚ) / (fateTotal exFate "coastal" : ℚ))).sum)) ∧
      ("retained_whole", (7 : ℕ)) ∈ fateGroups exFate "offshore" ∧
      p_fate exFate "retained" "offshore"
        = .ok (some (((7 : ℕ) : ℚ) / (fateTotal exFate "offshore" : ℚ))) ∧
      ("discard_alive", (30 : ℕ)) ∈ fateGroups exFate "coastal" ∧
      p_fate exFate "discard_alive" "coastal"
        = .ok (some (((30 : ℕ) : ℚ) / (fateTotal exFate "coastal" : ℚ))) := by
  refine ⟨by decide, (p_fate_selection exFate "x" "x").1 (by decide), by decide,
    (p_fate_selection exFate "x" "x").2.1 (by decide) 7 (by decide), by decide,
    (p_fate_selection exFate "discard_alive" "coastal").2.2 (by decide) (by decide) 30 (by decide)⟩

theorem map_fst_eq_three {β : Type} {l : List (String × β)} {a b c : String}
    (h : l.map Prod.fst = [a, b, c]) :
    ∃ v₁ v₂ v₃, l = [(a, v₁), (b, v₂), (c, v₃)] := by
  rcases l with _ | ⟨p₁, _ | ⟨p₂, _ | ⟨p₃, _ | ⟨p₄, l⟩⟩⟩⟩ <;> simp only [List.map_cons,
    List.map_nil, List.cons.injEq, List.nil_eq, reduceCtorEq, and_false, false_and] at h
  obtain ⟨h1, h2, h3, -⟩ := h
  exact ⟨p₁.2, p₂.2, p₃.2, by
    cases p₁; cases p₂; cases p₃
    simp_all⟩

theorem map_fst_eq_four {β : Type} {l : List (String × β)} {a b c d : String}
    (h : l.map Prod.fst = [a, b, c, d]) :
    ∃ v₁ v₂ v₃ v₄, l = [(a, v₁), (b, v₂), (c, v₃), (d, v₄)] := by
  rcases l with _ | ⟨p₁, _ | ⟨p₂, _ | ⟨p₃, _ | ⟨p₄, _ | ⟨p₅, l⟩⟩⟩⟩⟩ <;> simp only [List.map_cons,
    List.map_nil, List.cons.injEq, List.nil_eq, reduceCtorEq, and_false, false_and] at h
  obtain ⟨h1, h2, h3, h4, -⟩ := h
  exact ⟨p₁.2, p₂.2, p₃.2, p₄.2, by
    cases p₁; cases p₂; cases p₃; cases p₄
    simp_all⟩

/-- Counterexample to C4 as stated: a coastal table with a non-zero total
whose three fate_type groups are `discard_alive`, `discard_dead`,
`retained_whole`; `iloc[-2:]` double-counts `discard_dead`, so the three
probabilities sum to `4/3`, not `1`. -/
theorem p_fate_sum_counterexample :
    fateTotal ceFate "coastal" ≠ 0 ∧
      p_fate ceFate "discard_alive" "coastal" = .ok (some (1/3)) ∧
      p_fate ceFate "discard_dead" "coastal" = .ok (some (1/3)) ∧
      p_fate ceFate "retained" "coastal" = .ok (some (2/3)) ∧
      (1/3 + 1/3 + 2/3 : ℚ) ≠ 1 := by
  refine ⟨by decide, ?_, ?_, ?_, by norm_num⟩ <;>
  · simp [p_fate, fateProbs, fateTotal, fateGroups, domainFateRows, sharkFateRows, groupTotals,
      groupKeys, sortKeys, dedupKeys, insertKey, strLeb, charListLeb, skipnaSum, ceFate,
      non_shark_families]
    try norm_num

/-- C4 (amended): the `p_fate` values over the mutually exclusive fate
categories sum to 1 provided the grouped fate_type keys are exactly
`discard_alive`, `discard_dead` followed by, for coastal, exactly two
further (retained sub-category) keys, and for offshore, exactly
`retained_whole` — which is what the counterexample forces: with any other
group structure the positional `iloc[-2:]` selection breaks the
partition. -/
theorem p_fate_sums_to_one (t : List FateRow) (k₁ k₂ : String) :
    ((fateGroups t "coastal").map Prod.fst = ["discard_alive", "discard_dead", k₁, k₂] →
      fateTotal t "coastal" ≠ 0 →
      ∃ pa pd pr : ℚ,
        p_fate t "discard_alive" "coastal" = .ok (some pa) ∧
        p_fate t "discard_dead" "coastal" = .ok (some pd) ∧
        p_fate t "retained" "coastal" = .ok (some pr) ∧ pa + pd + pr = 1) ∧
      ((fateGroups t "offshore").map Prod.fst = ["discard_alive", "discard_dead", "retained_whole"] →
        fateTotal t "offshore" ≠ 0 →
        ∃ pa pd pr : ℚ,
          p_fate t "discard_alive" "offshore" = .ok (some pa) ∧
          p_fate t "discard_dead" "offshore" = .ok (some pd) ∧
          p_fate t "retained" "offshore" = .ok (some pr) ∧ pa + pd + pr = 1) := by
  constructor
  · intro hkeys htot
    obtain ⟨n₁, n₂, n₃, n₄, hGeq⟩ := map_fst_eq_four hkeys
    have hT : fateTotal t "coastal" = n₁ + n₂ + n₃ + n₄ := by
      rw [fateTotal, hGeq]
      simp [Nat.add_assoc]
    have hmem₁ : ("discard_alive", n₁) ∈ fateGroups t "coastal" := by rw [hGeq]; simp
    have hmem₂ : ("discard_dead", n₂) ∈ fateGroups t "coastal" := by rw [hGeq]; simp
    have hpa := p_fate_mask_eval t "discard_alive" "coastal" (by simp) (by simp) htot n₁ hmem₁
    have hpd := p_fate_mask_eval t "discard_dead" "coastal" (by simp) (by simp) htot n₂ hmem₂
    have hpr := p_fate_lasttwo_eval t htot
    have hdrop : ((fateGroups t "coastal").drop ((fateGroups t "coastal").length - 2)).map
        (fun g => (g.2 : ℚ) / (fateTotal t "coastal" : ℚ))
        = [(n₃ : ℚ) / (fateTotal t "coastal" : ℚ), (n₄ : ℚ) / (fateTotal t "coastal" : ℚ)] := by
      rw [hGeq]
      norm_num
    rw [hdrop] at hpr
    have hTne : (fateTotal t "coastal" : ℚ) ≠ 0 := Nat.cast_ne_zero.mpr htot
    refine ⟨_, _, _, hpa, hpd, hpr, ?_⟩
    rw [List.sum_cons, List.sum_cons, List.sum_nil]
    field_simp
    rw [hT]
    push_cast
    ring
  · intro hkeys htot
    obtain ⟨n₁, n₂, n₃, hGeq⟩ := map_fst_eq_three hkeys
    have hT : fateTotal t "offshore" = n₁ + n₂ + n₃ := by
      rw [fateTotal, hGeq]
      simp [Nat.add_assoc]
    have hmem₁ : ("discard_alive", n₁) ∈ fateGroups t "offshore" := by rw [hGeq]; simp
    have hmem₂ : ("discard_dead", n₂) ∈ fateGroups t "offshore" := by rw [hGeq]; simp
    have hmem₃ : ("retained_whole", n₃) ∈ fateGroups t "offshore" := by rw [hGeq]; simp
    have hpa := p_fate_mask_eval t "discard_alive" "offshore" (by simp) (by simp) htot n₁ hmem₁
    have hpd := p_fate_mask_eval t "discard_dead" "offshore" (by simp) (by simp) htot n₂ hmem₂
    have hpr := p_fate_loc_eval t htot n₃ hmem₃
    have hTne : (fateTotal t "offshore" : ℚ) ≠ 0 := Nat.cast_ne_zero.mpr htot
    refine ⟨_, _, _, hpa, hpd, hpr, ?_⟩
    field_simp
    rw [hT]
    push_cast
    ring

/-- Witness for amended C4: `exFate` has the four coastal groups and the
three offshore groups required. -/
theorem p_fate_sums_to_one_witness :
    ((fateGroups exFate "coastal").map Prod.fst
        = ["discard_alive", "discard_dead", "retained_damaged", "retained_whole"]) ∧
      fateTotal exFate "coastal" ≠ 0 ∧
      (∃ pa pd pr : ℚ,
        p_fate exFate "discard_alive" "coastal" = .ok (some pa) ∧
        p_fate exFate "discard_dead" "coastal" = .ok (some pd) ∧
        p_fate exFate "retained" "coastal" = .ok (some pr) ∧ pa + pd + pr = 1) ∧
      (∃ pa pd pr : ℚ,
        p_fate exFate "discard_alive" "offshore" = .ok (some pa) ∧
        p_fate exFate "discard_dead" "offshore" = .ok (some pd) ∧
        p_fate exFate "retained" "offshore" = .ok (some pr) ∧ pa + pd + pr = 1) := by
  have h := p_fate_sums_to_one exFate "retained_damaged" "retained_whole"
  exact ⟨by decide, by decide, h.1 (by decide) (by decide), h.2 (by decide) (by decide)⟩

/-- Counterexample to C7 as stated: on a table whose only (family- and
domain-filtered) row has `sample_size = 0`, `p_fate` and `m_fate` do not
fail — the `0/0` normalization yields NaN and the lookup returns it as a
successful result. -/
theorem zero_total_counterexample :
    rawFateTotal ztFate "coastal" = 0 ∧
      p_fate ztFate "discard_alive" "coastal" = .ok none ∧
      rawMortTotal zmMort = 0 ∧
      m_fate zmMort "discard_alive" "coastal" = .ok none := by
  refine ⟨by decide, ?_, by decide, ?_⟩
  · simp [p_fate, fateProbs, fateTotal, fateGroups, domainFateRows, sharkFateRows, groupTotals,
      groupKeys, sortKeys, dedupKeys, insertKey, strLeb, charListLeb, ztFate, non_shark_families]
  · simp [m_fate, mortProbs, mortTotal, mortGroups, sharkMortRows, groupTotals, groupKeys,
      sortKeys, dedupKeys, insertKey, strLeb, charListLeb, zmMort, non_shark_families]

theorem skipnaSum_zero_of_all_none :
    ∀ L : List (String × Option ℚ), (∀ x ∈ L, x.2 = none) → skipnaSum L = 0 := by
  intro L
  induction L with
  | nil => intro _; rfl
  | cons a L ih =>
    intro h
    have ha := h a (List.mem_cons_self _ _)
    cases a
    simp only at ha
    subst ha
    rw [skipnaSum_cons_none]
    exact ih (fun x hx => h x (List.mem_cons_of_mem _ hx))

/-- C7 (amended): a zero total sample size does not make `p_fate`/`m_fate`
fail; the normalization produces NaN, the key lookups return that NaN as a
successful result, and the coastal-retained branch returns `0.0` because
pandas `.sum()` skips NaN. -/
theorem zero_total_yields_nan (t : List FateRow) (m : List MortRow) (fate domain : String) :
    (rawFateTotal t "coastal" = 0 → p_fate t "retained" "coastal" = .ok (some 0)) ∧
      (rawFateTotal t domain = 0 → ¬(fate = "retained" ∧ domain = "coastal") →
        ¬(fate = "retained" ∧ domain = "offshore") →
        fate ∈ (fateGroups t domain).map Prod.fst →
        p_fate t fate domain = .ok none) ∧
      (rawFateTotal t "offshore" = 0 →
        "retained_whole" ∈ (fateGroups t "offshore").map Prod.fst →
        p_fate t "retained" "offshore" = .ok none) ∧
      (rawMortTotal m = 0 → "post-release mortality" ∈ (mortGroups m).map Prod.fst →
        m_fate m "discard_alive" domain = .ok none) := by
  refine ⟨?_, ?_, ?_, ?_⟩
  · intro hraw
    have htot : fateTotal t "coastal" = 0 := (fateTotal_eq_raw t "coastal").trans hraw
    have hprobs : fateProbs t "coastal" = (fateGroups t "coastal").map
        (fun g => (g.1, (none : Option ℚ))) := by
      simp [fateProbs, htot]
    have hbranch : p_fate t "retained" "coastal"
        = .ok (some (skipnaSum ((fateProbs t "coastal").drop
            ((fateProbs t "coastal").length - 2)))) := by
      simp [p_fate]
    rw [hbranch]
    have hzero : skipnaSum ((fateProbs t "coastal").drop
        ((fateProbs t "coastal").length - 2)) = 0 := by
      apply skipnaSum_zero_of_all_none
      intro x hx
      have hx' : x ∈ fateProbs t "coastal" := List.drop_subset _ _ hx
      rw [hprobs] at hx'
      rcases List.mem_map.mp hx' with ⟨g, -, rfl⟩
      rfl
    rw [hzero]
  · intro hraw h1 h2 hk
    have htot : fateTotal t domain = 0 := (fateTotal_eq_raw t domain).trans hraw
    have hprobs : fateProbs t domain = (fateGroups t domain).map
        (fun g => (g.1, (none : Option ℚ))) := by
      simp [fateProbs, htot]
    have hall : ∀ x ∈ fateProbs t domain, x.2 = none := by
      intro x hx
      rw [hprobs] at hx
      rcases List.mem_map.mp hx with ⟨g, -, rfl⟩
      rfl
    have hk' : fate ∈ (fateProbs t domain).map Prod.fst := by
      rw [fateProbs_keys]
      exact hk
    obtain ⟨k', hh⟩ := filter_head_of_all_none (fateProbs t domain) hall fate hk'
    simp only [p_fate, if_neg h1, if_neg h2, hh]
  · intro hraw hk
    have htot : fateTotal t "offshore" = 0 := (fateTotal_eq_raw t "offshore").trans hraw
    have hprobs : fateProbs t "offshore" = (fateGroups t "offshore").map
        (fun g => (g.1, (none : Option ℚ))) := by
      simp [fateProbs, htot]
    have hall : ∀ x ∈ fateProbs t "offshore", x.2 = none := by
      intro x hx
      rw [hprobs] at hx
      rcases List.mem_map.mp hx with ⟨g, -, rfl⟩
      rfl
    have hk' : "retained_whole" ∈ (fateProbs t "offshore").map Prod.fst := by
      rw [fateProbs_keys]
      exact hk
    obtain ⟨k', hh⟩ := find?_of_all_none (fateProbs t "offshore") hall "retained_whole" hk'
    simp [p_fate, hh]
  · intro hraw hk
    have htot : mortTotal m = 0 := (mortTotal_eq_raw m).trans hraw
    have hprobs : mortProbs m = (mortGroups m).map
        (fun g => (g.1, (none : Option ℚ))) := by
      simp [mortProbs, htot]
    have hall : ∀ x ∈ mortProbs m, x.2 = none := by
      intro x hx
      rw [hprobs] at hx
      rcases List.mem_map.mp hx with ⟨g, -, rfl⟩
      rfl
    have hk' : "post-release mortality" ∈ (mortProbs m).map Prod.fst := by
      rw [mortProbs_keys]
      exact hk
    obtain ⟨k', hh⟩ := filter_head_of_all_none (mortProbs m) hall "post-release mortality" hk'
    simp [m_fate, hh]

/-- Witness for amended C7 on the zero-sample tables. -/
theorem zero_total_yields_nan_witness :
    rawFateTotal ztFate "coastal" = 0 ∧
      p_fate ztFate "retained" "coastal" = .ok (some 0) ∧
      ("discard_alive" ∈ (fateGroups ztFate "coastal").map Prod.fst) ∧
      p_fate ztFate "discard_alive" "coastal" = .ok none ∧
      rawMortTotal zmMort = 0 ∧
      ("post-release mortality" ∈ (mortGroups zmMort).map Prod.fst) ∧
      m_fate zmMort "discard_alive" "coastal" = .ok none := by
  refine ⟨by decide, (zero_total_yields_nan ztFate [] "x" "x").1 (by decide), by decide,
    (zero_total_yields_nan ztFate [] "discard_alive" "coastal").2.1 (by decide) (by decide)
      (by decide) (by decide),
    by decide, by decide,
    (zero_total_yields_nan [] zmMort "x" "coastal").2.2.2 (by decide) (by decide)⟩
